import Mathlib

/-!
# Verification of HBN-wearable-analysis data transformations

Shallow embedding of the data-transformation core of the
ChildMindInstitute/HBN-wearable-analysis scripts
(`chart_data.py`, `organize_wearable_data.py`,
`plot_normalized_vector_lengths.py`), with theorems settling the
specification claims about the Placement Reconciler, the Time-Window
Extractor, the device-reader scale conversions, baseline
shift-and-renormalize, cross-correlation pairing, timestamp-conversion
error handling, and batch-failure isolation.

Timestamps are embedded as `Int` (Linux epoch instants), sensor samples
as `ℚ` (the Python floats, modelled exactly), and fallible code as
`Option`/`Except`.
-/

namespace HBN

/-- A device accelerometer sample: `Timestamp` plus `x`, `y`, `z` value
columns, as in the organized per-device CSVs read by
`chart_data.buildperson`. -/
structure Reading where
  t : Int
  x : ℚ
  y : ℚ
  z : ℚ
deriving DecidableEq, Repr

/-- The Time-Window Extractor of `chart_data.buildperson` (lines 70–71)
and `plot_normalized_vector_lengths.build_plot` (lines 158–160):
`device_df.loc[(device_df['Timestamp'] >= start) & (device_df['Timestamp'] <= stop)]`,
a row filter keeping exactly the rows whose timestamp lies in the
closed range `[start, stop]`. -/
def windowFilter (start stop : Int) (rows : List Reading) : List Reading :=
  rows.filter (fun r => decide (start ≤ r.t) && decide (r.t ≤ stop))

/-- Minimum timestamp of a list of readings (`0` junk value when empty;
only used under a nonemptiness hypothesis). -/
def minT (rows : List Reading) : Int :=
  ((rows.map Reading.t).min?).getD 0

/-- Maximum timestamp of a list of readings (`0` junk value when empty;
only used under a nonemptiness hypothesis). -/
def maxT (rows : List Reading) : Int :=
  ((rows.map Reading.t).max?).getD 0

/-! ## Device-reader scale conversions (`organize_wearable_data.py`)

Each reader ends with a per-axis map dividing the raw value by the
vendor factor:
* `actigraph_acc_data` (lines 84–87): `lambda x: float(x)/512`
* `e4_acc` (lines 216–218): `lambda x: float(x)/64`
* `geneactiv_acc_data` (lines 410–413): `lambda x: float(x)/4`
* `wavelet_acc` (lines 543–546): `lambda x: float(x)/64`
-/

/-- Actigraph per-axis scale conversion applied over a value column. -/
def actigraph_scale (col : List ℚ) : List ℚ := col.map (fun x => x / 512)

/-- E4 per-axis scale conversion applied over a value column. -/
def e4_scale (col : List ℚ) : List ℚ := col.map (fun x => x / 64)

/-- GENEActiv per-axis scale conversion applied over a value column. -/
def geneactiv_scale (col : List ℚ) : List ℚ := col.map (fun x => x / 4)

/-- Wavelet per-axis scale conversion applied over a value column. -/
def wavelet_scale (col : List ℚ) : List ℚ := col.map (fun x => x / 64)

/-! ## Baseline shift and renormalization
(`plot_normalized_vector_lengths.baseshift_and_renormalize`, lines 83–103)

```
baseline = np.nanmedian(data['normalized_vector_length'])
data[...] = data[...].map(lambda x: max(x - baseline, 0))
datamax = max(data['normalized_vector_length'])
data[...] = data[...] / datamax
```

`np.nanmedian` of a series of (finite, non-NaN) values is the middle
element of the sorted values for odd length and the mean of the two
middle elements for even length.  `max()` of an empty series raises
`ValueError`, and when the shifted maximum is `0` the division `0/0`
produces NaN for every entry; both failure modes are modelled as
`none` (NaN is not representable in ℚ). -/

/-- `np.nanmedian` over a series of finite values: middle of the sorted
list (mean of the two middles for even length); `0` junk value for the
empty list, where numpy would produce NaN. -/
def npmedian (l : List ℚ) : ℚ :=
  let s := l.insertionSort (· ≤ ·)
  let n := l.length
  if n = 0 then 0
  else if n % 2 = 1 then s.getD (n / 2) 0
  else (s.getD (n / 2 - 1) 0 + s.getD (n / 2) 0) / 2

/-- The per-series baseline shift of `baseshift_and_renormalize`:
subtract the series median from each value and clamp negatives to `0`. -/
def baseshift (data : List ℚ) : List ℚ :=
  data.map (fun x => max (x - npmedian data) 0)

/-- `plot_normalized_vector_lengths.baseshift_and_renormalize`:
baseline-shift, then divide every value by the maximum of the shifted
series.  `none` models the two non-finite outcomes: `max()` of an empty
series raises `ValueError`, and a zero shifted maximum makes every
quotient `0/0 = NaN`. -/
def baseshift_and_renormalize (data : List ℚ) : Option (List ℚ) :=
  let shifted := baseshift data
  match shifted.max? with
  | none => none
  | some m => if m = 0 then none else some (shifted.map (fun x => x / m))

/-! ## Timestamp conversion error handling
(`chart_data.buildperson`, lines 65–69)

```
try:
    device_df[['Timestamp']] = device_df.Timestamp.map(lambda x: datetimeint(str(x)))
except:
    pass
```

The parser `datetimeint` (a `datetime.strptime` wrapper) is modelled as
an arbitrary fallible element map `f : α → Option α`; `Timestamp.map`
raises as soon as one element fails to parse, in which case the column
assignment never happens and the column keeps the values as read. -/

/-- The guarded timestamp conversion of `buildperson`: convert the whole
column, and if any element fails to parse, catch the exception and keep
the column unchanged. -/
def buildperson_convert {α : Type} (f : α → Option α) (xs : List α) : List α :=
  (xs.mapM f).getD xs

/-! ## Batch failure isolation
(`plot_normalized_vector_lengths.main`, lines 69–81, and
`chart_data.main`, lines 24–28)

A unit of work (one chart / one person) is modelled as an
`Except ε α`: the exception it raises, or the output it produces.
`plot_normalized_vector_lengths.main` wraps each `build_plot` call in
`try/except`, so a failing chart is skipped; `chart_data.main` calls
`buildperson` bare inside its loop, so the first failing person
propagates and the loop never reaches the remaining persons. -/

/-- Outputs completed by `plot_normalized_vector_lengths.main`: every
unit of work is attempted, failing units are caught and skipped. -/
def pnvl_main_completed {ε α : Type} (work : List (Except ε α)) : List α :=
  work.filterMap (fun u => u.toOption)

/-- Outputs completed by `chart_data.main`: units run in order with no
handler, so the first failure aborts the loop and the remaining units
are never attempted. -/
def chart_data_main_completed {ε α : Type} : List (Except ε α) → List α
  | [] => []
  | .ok a :: rest => a :: chart_data_main_completed rest
  | .error _ :: _ => []

/-! ## Cross-correlation pairing
(`plot_normalized_vector_lengths.linechart`, lines 307–314, calling
`cross_correlate`, lines 199–214)

```
while len(esses) > 2:
    for i, s in enumerate(esses):
        if i < len(esses):
            cross_correlate(s, esses[-1], ...)
    del esses[-1]
cross_correlate(esses[0], esses[1], ...)
```

`cross_correlate` itself just writes `np.correlate(s1, s2)` to a file;
what the claims are about is *which ordered pairs of series* get
correlated, so the embedding returns that list of pairs.  Series are
left abstract (`α`).  Note the guard `i < len(esses)` is always true, so
each round pairs every element — the last one included — with the last
element.  `none` models the `IndexError` of `esses[0]`/`esses[1]` when
fewer than two series remain. -/

/-- The sequence of ordered pairs handed to `cross_correlate` by the
tail of `linechart`: while more than two series remain, pair every
series (the last one included, since `i < len(esses)` always holds)
with the last series and drop the last series; finally pair the first
two series. -/
def linechart_correlations {α : Type} (esses : List α) : Option (List (α × α)) :=
  if h : 2 < esses.length then
    (linechart_correlations esses.dropLast).map
      (fun rest =>
        (esses.map (fun s => (s, esses.getLast (by rintro rfl; simp at h)))) ++ rest)
  else
    match esses with
    | [a, b] => some [(a, b)]
    | _ => none
termination_by esses.length
decreasing_by simp [List.length_dropLast]; omega

/-! ## E4 timestamp assignment
(`organize_wearable_data.e4_timestamp`, lines 257–282)

```
start_time = int(df.iloc[0,0])
sample_rate = int(df.iloc[1,0])
new_df = df[2:].copy()
new_index = np.arange(start_time, len(new_df)*sample_rate+start_time, sample_rate)
new_df['Timestamp'] = pd.Series(new_index).apply(...)
new_df.set_index('Timestamp', inplace=True)
```

Only the first value column drives the timestamps, so the input is
embedded as that column (`List ℚ`).  Crucially,
`new_df['Timestamp'] = pd.Series(new_index)` assigns **by pandas index
alignment**: `new_df` keeps the original row labels `2..n-1` while the
series carries labels `0..n-3`, so the row labelled `j` receives
`new_index[j]` — not `new_index[j-2]` — and the last two rows receive
NaT/NaN (modelled as `none`).  `none` overall models the `IndexError`
when the input has fewer than two rows. -/

/-- Python `int()`: truncation toward zero. -/
def pyint (q : ℚ) : Int := if 0 ≤ q then ⌊q⌋ else ⌈q⌉

/-- `np.arange(start, stop, step)` over integers for a positive step:
the values `start + i*step` for `0 ≤ i < ⌈(stop − start)/step⌉`
(`[]` junk value for a non-positive step, where this call pattern does
not arise). -/
def arange (start stop step : Int) : List Int :=
  if 0 < step then
    (List.range (((stop - start) + step - 1) / step).toNat).map
      (fun i => start + i * step)
  else []

/-- `organize_wearable_data.e4_timestamp`: first row is the start time,
second the sample rate, both dropped; the computed `new_index` is then
attached by pandas index alignment, so the `i`-th remaining row
(original label `i + 2`) gets `new_index[i + 2]` when that exists and a
missing timestamp (`none`) otherwise. -/
def e4_timestamp (df : List ℚ) : Option (List (Option Int × ℚ)) :=
  match df with
  | v0 :: v1 :: rest =>
      let start_time := pyint v0
      let sample_rate := pyint v1
      let new_index :=
        arange start_time ((rest.length : Int) * sample_rate + start_time)
          sample_rate
      some (((List.range rest.length).zip rest).map
        (fun p => (new_index[p.1 + 2]?, p.2)))
  | _ => none

/-! ## Placement Reconciler (`chart_data.getpeople`, lines 163–224)

`getpeople` merges `person.csv` and `wrist.csv` into one table
`person_wrist` with a `Timestamp` column and one column per device,
each cell a `(wearer, wrist)` tuple or a `(nan, nan)` pair.  The
embedding starts from that merged table: a `PlacementRow` is a
timestamp plus the per-device cells (`none` for the nan pair).  The
code then:

* `chart_wrists`: the distinct non-nan tuples in the table, sorted
  (Python sorts string tuples lexicographically);
* `times`: the distinct timestamps, sorted;
* `start_stop`: the dict `{times[i] ↦ times[i+1] | i < N−1}`, embedded
  as the association list `times.zip times.tail`;
* `people`: for each chart wrist, device and row whose cell equals the
  wrist, append `[pw, device, t, start_stop[t]]` — where
  `start_stop[t]` raises `KeyError` when `t` has no successor.

`List.dedup` keeps the later duplicate where `pd.unique` keeps the
first, but both feed a sort of the same distinct values, so the sorted
results coincide.  The final `datetime.fromtimestamp` rendering of
`start`/`stop` is formatting only and omitted; the `KeyError` abort is
an `Except.error`. -/

/-- A `(wearer, wrist)` tuple from the placement log. -/
abbrev PW := String × String

/-- One row of the merged `person_wrist` table: the timestamp and, per
device column, the `(wearer, wrist)` cell (`none` for the nan pair). -/
structure PlacementRow where
  t : Int
  cells : List (String × Option PW)
deriving DecidableEq, Repr

/-- Cell of a row in a device column. -/
def PlacementRow.cell (row : PlacementRow) (d : String) : Option PW :=
  (row.cells.lookup d).bind id

/-- A derived wear interval: `[person_wrist, device, start, stop]` as
appended to `people` by `getpeople`. -/
structure WearInterval where
  pw : PW
  device : String
  start : Int
  stop : Int
deriving DecidableEq, Repr

/-- Lexicographic comparison of `(wearer, wrist)` tuples, as Python's
`list.sort()` orders tuples of strings. -/
def pwlt (p q : PW) : Prop := p.1 < q.1 ∨ (p.1 = q.1 ∧ p.2 ≤ q.2)

instance : DecidableRel pwlt := fun p q => by unfold pwlt; infer_instance

/-- `chart_wrists`: the distinct non-nan `(wearer, wrist)` tuples of
the table, sorted. -/
def chartWrists (tbl : List PlacementRow) : List PW :=
  (((tbl.flatMap (fun row => row.cells.map Prod.snd)).filterMap id).dedup).insertionSort
    pwlt

/-- `times`: the distinct timestamps of the table, sorted. -/
def times (tbl : List PlacementRow) : List Int :=
  ((tbl.map PlacementRow.t).dedup).insertionSort (· ≤ ·)

/-- The `start_stop` dict, pairing each timestamp with its successor in
sorted order: built for `times[i]` with `i < len(times) - 1` only, so
the last timestamp has no entry. -/
def start_stop (tbl : List PlacementRow) : List (Int × Int) :=
  (times tbl).zip (times tbl).tail

/-- The triple loop of `getpeople`: for every chart wrist, device
column and row whose cell equals that wrist, one pending entry
`(pw, device, timestamp)`. -/
def allAssignments (devices : List String) (tbl : List PlacementRow) :
    List (PW × String × Int) :=
  (chartWrists tbl).flatMap (fun pw =>
    devices.flatMap (fun d =>
      tbl.filterMap (fun row =>
        if row.cell d = some pw then some (pw, d, row.t) else none)))

/-- `chart_data.getpeople`: emit a `WearInterval` per assignment, with
`stop = start_stop[start]`; an assignment whose timestamp has no
successor raises `KeyError`, which aborts the whole function. -/
def getpeople (devices : List String) (tbl : List PlacementRow) :
    Except String (List WearInterval) :=
  (allAssignments devices tbl).mapM (fun a =>
    match (start_stop tbl).lookup a.2.2 with
    | some t' => Except.ok ⟨a.1, a.2.1, a.2.2, t'⟩
    | none => Except.error "KeyError")

end HBN

namespace HBN

lemma windowFilter_sublist (start stop : Int) (rows : List Reading) :
    (windowFilter start stop rows).Sublist rows :=
  List.filter_sublist rows

lemma mem_windowFilter {start stop : Int} {rows : List Reading} {r : Reading} :
    r ∈ windowFilter start stop rows ↔ r ∈ rows ∧ start ≤ r.t ∧ r.t ≤ stop := by
  simp [windowFilter, List.mem_filter, and_assoc]

lemma foldl_min_le_init {α : Type} [LinearOrder α] (l : List α) (init : α) :
    l.foldl min init ≤ init := by
  induction l generalizing init with
  | nil => simp
  | cons x xs ih => exact le_trans (ih (min init x)) (min_le_left _ _)

lemma foldl_min_le_mem {α : Type} [LinearOrder α] {l : List α} {a : α}
    (ha : a ∈ l) (init : α) : l.foldl min init ≤ a := by
  induction l generalizing init with
  | nil => cases ha
  | cons x xs ih =>
      rcases List.mem_cons.mp ha with h | h
      · subst h
        exact le_trans (foldl_min_le_init xs (min init a)) (min_le_right _ _)
      · exact ih h (min init x)

lemma init_le_foldl_max {α : Type} [LinearOrder α] (l : List α) (init : α) :
    init ≤ l.foldl max init := by
  induction l generalizing init with
  | nil => simp
  | cons x xs ih => exact le_trans (le_max_left _ _) (ih (max init x))

lemma mem_le_foldl_max {α : Type} [LinearOrder α] {l : List α} {a : α}
    (ha : a ∈ l) (init : α) : a ≤ l.foldl max init := by
  induction l generalizing init with
  | nil => cases ha
  | cons x xs ih =>
      rcases List.mem_cons.mp ha with h | h
      · subst h
        exact le_trans (le_max_right _ _) (init_le_foldl_max xs (max init a))
      · exact ih h (max init x)

lemma minT_le_of_mem {rows : List Reading} {r : Reading} (h : r ∈ rows) :
    minT rows ≤ r.t := by
  cases rows with
  | nil => cases h
  | cons r₀ rs =>
      have : minT (r₀ :: rs) = (rs.map Reading.t).foldl min r₀.t := by
        simp only [minT, List.map_cons, List.min?_cons', Option.getD_some]
      rw [this]
      rcases List.mem_cons.mp h with h' | h'
      · subst h'; exact foldl_min_le_init _ _
      · exact foldl_min_le_mem (List.mem_map_of_mem _ h') _

lemma le_maxT_of_mem {rows : List Reading} {r : Reading} (h : r ∈ rows) :
    r.t ≤ maxT rows := by
  cases rows with
  | nil => cases h
  | cons r₀ rs =>
      have : maxT (r₀ :: rs) = (rs.map Reading.t).foldl max r₀.t := by
        simp only [maxT, List.map_cons, List.max?_cons', Option.getD_some]
      rw [this]
      rcases List.mem_cons.mp h with h' | h'
      · subst h'; exact init_le_foldl_max _ _
      · exact mem_le_foldl_max (List.mem_map_of_mem _ h') _

lemma windowFilter_full_range {rows : List Reading} (_h : rows ≠ []) :
    windowFilter (minT rows) (maxT rows) rows = rows := by
  unfold windowFilter
  rw [List.filter_eq_self]
  intro r hr
  simp [minT_le_of_mem hr, le_maxT_of_mem hr]

/-- C2: the Time-Window Extractor returns exactly the rows with
`start ≤ t ≤ stop` (both endpoints included), each returned row a row of
the input with relative order preserved (a sublist, so nothing is
synthesized), and on a nonempty input the full-range window
`[minT, maxT]` returns the input unchanged. -/
theorem windowFilter_spec (start stop : Int) (rows : List Reading) :
    (windowFilter start stop rows).Sublist rows ∧
    (∀ r : Reading,
      r ∈ windowFilter start stop rows ↔ r ∈ rows ∧ start ≤ r.t ∧ r.t ≤ stop) ∧
    (rows ≠ [] → windowFilter (minT rows) (maxT rows) rows = rows) :=
  ⟨windowFilter_sublist start stop rows,
   fun _ => mem_windowFilter,
   windowFilter_full_range⟩

/-- Witness for `windowFilter_spec` at a concrete two-row input. -/
theorem windowFilter_spec_witness :
    (windowFilter 0 1 [⟨0, 1, 2, 3⟩, ⟨5, 0, 0, 0⟩]).Sublist
        [⟨0, 1, 2, 3⟩, ⟨5, 0, 0, 0⟩] ∧
    windowFilter (minT [(⟨0, 1, 2, 3⟩ : Reading), ⟨5, 0, 0, 0⟩])
        (maxT [(⟨0, 1, 2, 3⟩ : Reading), ⟨5, 0, 0, 0⟩])
        [⟨0, 1, 2, 3⟩, ⟨5, 0, 0, 0⟩] = [⟨0, 1, 2, 3⟩, ⟨5, 0, 0, 0⟩] :=
  ⟨(windowFilter_spec 0 1 [⟨0, 1, 2, 3⟩, ⟨5, 0, 0, 0⟩]).1,
   (windowFilter_spec 0 1 [⟨0, 1, 2, 3⟩, ⟨5, 0, 0, 0⟩]).2.2 (by decide)⟩

/-- C3: the Time-Window Extractor is idempotent — applying the same
window to its own output returns that output unchanged. -/
theorem windowFilter_idempotent (start stop : Int) (rows : List Reading) :
    windowFilter start stop (windowFilter start stop rows) =
      windowFilter start stop rows := by
  unfold windowFilter
  rw [List.filter_eq_self]
  intro r hr
  exact (List.mem_filter.mp hr).2

/-- C4: each device reader's scale conversion is linear — the emitted
reading is raw divided by the vendor factor (Actigraph 512, E4 64,
GENEActiv 4, Wavelet 64) — and multiplying the emitted column back by
that factor recovers the raw column exactly (over ℚ). -/
theorem scale_conversions_linear_invertible (col : List ℚ) :
    actigraph_scale col = col.map (fun x => x / 512) ∧
    e4_scale col = col.map (fun x => x / 64) ∧
    geneactiv_scale col = col.map (fun x => x / 4) ∧
    wavelet_scale col = col.map (fun x => x / 64) ∧
    (actigraph_scale col).map (fun x => x * 512) = col ∧
    (e4_scale col).map (fun x => x * 64) = col ∧
    (geneactiv_scale col).map (fun x => x * 4) = col ∧
    (wavelet_scale col).map (fun x => x * 64) = col := by
  have key : ∀ (c : ℚ), c ≠ 0 → ∀ l : List ℚ,
      (l.map (fun x => x / c)).map (fun x => x * c) = l := by
    intro c hc l
    rw [List.map_map]
    conv_rhs => rw [← List.map_id l]
    exact List.map_congr_left
      (fun a _ => by simp [Function.comp, div_mul_cancel₀ a hc])
  exact ⟨rfl, rfl, rfl, rfl, key 512 (by norm_num) col, key 64 (by norm_num) col,
    key 4 (by norm_num) col, key 64 (by norm_num) col⟩

/-- C5: `baseshift_and_renormalize` subtracts the series median,
clamps negatives to `0`, then divides by the shifted maximum; on
`[2,3,5,8]` (median `4`) the shifted series is `[0,0,1,4]` and the
final output `[0,0,0.25,1]`. -/
theorem baseshift_and_renormalize_example :
    npmedian [2, 3, 5, 8] = 4 ∧
    baseshift [2, 3, 5, 8] = [0, 0, 1, 4] ∧
    baseshift_and_renormalize [2, 3, 5, 8] = some [0, 0, 1/4, 1] := by
  refine ⟨by norm_num [npmedian, List.insertionSort, List.orderedInsert], ?_, ?_⟩ <;>
    norm_num [baseshift_and_renormalize, baseshift, npmedian,
      List.insertionSort, List.orderedInsert, List.max?]

/-- C7: the guarded timestamp conversion of `buildperson` never
propagates a parse failure — when every element parses the converted
column is assigned, and when any element fails the column is passed
through exactly as read. -/
theorem buildperson_convert_spec {α : Type} (f : α → Option α) (xs : List α) :
    (∀ ys, xs.mapM f = some ys → buildperson_convert f xs = ys) ∧
    ((∃ x ∈ xs, f x = none) → buildperson_convert f xs = xs) := by
  constructor
  · intro ys hys
    simp only [buildperson_convert, hys, Option.getD_some]
  · rintro ⟨x, hx, hfx⟩
    have hnone : xs.mapM f = none := by
      induction xs with
      | nil => cases hx
      | cons y ys ih =>
          rw [List.mapM_cons]
          rcases List.mem_cons.mp hx with h | h
          · subst h; rw [hfx]; rfl
          · cases hfy : f y with
            | none => rfl
            | some v => rw [ih h]; rfl
    simp only [buildperson_convert, hnone, Option.getD_none]

/-- Witness for `buildperson_convert_spec`: a one-element column whose
single entry fails to parse is passed through unchanged. -/
theorem buildperson_convert_spec_witness :
    buildperson_convert (fun _ : Nat => none) [3] = [3] :=
  (buildperson_convert_spec (fun _ : Nat => none) [3]).2 ⟨3, by simp, rfl⟩

/-- C8 counterexample: in `chart_data.main` a failure in the first unit
of work aborts the loop, so the second unit — which would have
succeeded with output `0` — never completes, contradicting the claim
that every failure is local to its unit of work. -/
theorem chart_data_main_abort_counterexample :
    (0 : ℕ) ∉ chart_data_main_completed [Except.error (), Except.ok (0 : ℕ)] := by
  decide

/-- C8 amended: failures are isolated per chart in
`plot_normalized_vector_lengths.main` (every successfully computed unit
completes no matter which other units fail), while `chart_data.main`
has no handler, so a failure in one person aborts all subsequent
persons (nothing after the first failing unit completes). -/
theorem failure_isolation (ε α : Type) (work : List (Except ε α)) :
    (∀ a : α, Except.ok a ∈ work → a ∈ pnvl_main_completed work) ∧
    (∀ (e : ε) (pre post : List (Except ε α)),
      work = pre ++ Except.error e :: post →
      ∀ a : α, a ∈ chart_data_main_completed work →
        Except.ok a ∈ pre) := by
  constructor
  · intro a ha
    simp only [pnvl_main_completed, List.mem_filterMap]
    exact ⟨Except.ok a, ha, rfl⟩
  · intro e pre post hw a ha
    subst hw
    induction pre with
    | nil => simp [chart_data_main_completed] at ha
    | cons u pre ih =>
        cases u with
        | error e' => simp [chart_data_main_completed] at ha
        | ok b =>
            simp only [List.cons_append, chart_data_main_completed,
              List.mem_cons] at ha
            rcases ha with h | h
            · subst h; exact List.mem_cons_self _ _
            · exact List.mem_cons_of_mem _ (ih h)

/-- Witness for `failure_isolation` at a concrete batch: with work
units `[ok 2, error (), ok 5]`, unit `5` still completes under the
`plot_normalized_vector_lengths.main` discipline, and every output of
the aborting `chart_data.main` discipline comes from before the
failure. -/
theorem failure_isolation_witness :
    (5 : ℕ) ∈ pnvl_main_completed
        [Except.ok (2 : ℕ), Except.error (), Except.ok 5] ∧
    (∀ a : ℕ, a ∈ chart_data_main_completed
        [Except.ok (2 : ℕ), Except.error (), Except.ok 5] →
      Except.ok a ∈ ([Except.ok 2] : List (Except Unit ℕ))) :=
  ⟨(failure_isolation Unit ℕ [Except.ok 2, Except.error (), Except.ok 5]).1 5
      (by simp),
   fun a ha =>
    (failure_isolation Unit ℕ [Except.ok 2, Except.error (), Except.ok 5]).2
      () [Except.ok 2] [Except.ok 5] rfl a ha⟩

lemma le_max?_of_mem {α : Type} [LinearOrder α] {l : List α} {a m : α}
    (ha : a ∈ l) (hm : l.max? = some m) : a ≤ m := by
  cases l with
  | nil => cases ha
  | cons x xs =>
      rw [List.max?_cons'] at hm
      injection hm with hm
      subst hm
      rcases List.mem_cons.mp ha with h | h
      · subst h; exact init_le_foldl_max _ _
      · exact mem_le_foldl_max h _

lemma foldl_max_zero {l : List ℚ} (h : ∀ y ∈ l, y = (0 : ℚ)) :
    l.foldl max 0 = 0 := by
  induction l with
  | nil => rfl
  | cons x xs ih =>
      rw [List.foldl_cons, h x (List.mem_cons_self _ _), max_self]
      exact ih (fun y hy => h y (List.mem_cons_of_mem _ hy))

/-- C9: the bounded-output guarantee of `baseshift_and_renormalize`
needs some input value strictly above the series median: when one
exists, the function succeeds and its output lies in `[0, 1]` with `1`
attained; when no value exceeds the median (and the series is
nonempty), the post-shift maximum is exactly `0` and the final
normalization divides by zero (NaN output, modelled as `none`). -/
theorem baseshift_requires_value_above_median (data : List ℚ) :
    ((∃ x ∈ data, npmedian data < x) →
      ∃ out, baseshift_and_renormalize data = some out ∧
        (∀ y ∈ out, 0 ≤ y ∧ y ≤ 1) ∧ 1 ∈ out) ∧
    (data ≠ [] → (∀ x ∈ data, x ≤ npmedian data) →
      (baseshift data).max? = some 0 ∧
      baseshift_and_renormalize data = none) := by
  constructor
  · rintro ⟨x, hx, hlt⟩
    have hmem : max (x - npmedian data) 0 ∈ baseshift data :=
      List.mem_map_of_mem _ hx
    obtain ⟨m, hm⟩ : ∃ m, (baseshift data).max? = some m := by
      cases h : (baseshift data).max? with
      | none =>
          rw [List.max?_eq_none_iff] at h
          rw [h] at hmem
          cases hmem
      | some m => exact ⟨m, rfl⟩
    have hmmem : m ∈ baseshift data :=
      List.max?_mem (fun a b => max_choice a b) hm
    have hle : max (x - npmedian data) 0 ≤ m := le_max?_of_mem hmem hm
    have hpos : 0 < m :=
      lt_of_lt_of_le (lt_max_iff.mpr (Or.inl (by linarith))) hle
    have hm0 : ¬ m = 0 := ne_of_gt hpos
    refine ⟨(baseshift data).map (fun y => y / m), ?_, ?_, ?_⟩
    · simp [baseshift_and_renormalize, hm, hm0]
    · intro y hy
      obtain ⟨s, hs, rfl⟩ := List.mem_map.mp hy
      have hs0 : (0 : ℚ) ≤ s := by
        obtain ⟨x', _, rfl⟩ := List.mem_map.mp hs
        exact le_max_right _ _
      exact ⟨div_nonneg hs0 (le_of_lt hpos),
        (div_le_one hpos).mpr (le_max?_of_mem hs hm)⟩
    · have h1 : m / m = 1 := div_self hm0
      rw [← h1]
      exact List.mem_map_of_mem _ hmmem
  · intro hne hall
    have hz : ∀ y ∈ baseshift data, y = (0 : ℚ) := by
      intro y hy
      obtain ⟨x', hx', rfl⟩ := List.mem_map.mp hy
      exact max_eq_right (sub_nonpos.mpr (hall x' hx'))
    obtain ⟨d, rest, rfl⟩ : ∃ d rest, data = d :: rest := by
      cases data with
      | nil => exact absurd rfl hne
      | cons d rest => exact ⟨d, rest, rfl⟩
    have hmax : (baseshift (d :: rest)).max? = some 0 := by
      rw [show baseshift (d :: rest) =
            max (d - npmedian (d :: rest)) 0 ::
              rest.map (fun x => max (x - npmedian (d :: rest)) 0) from rfl,
          List.max?_cons',
          hz _ (List.mem_map_of_mem _ (List.mem_cons_self _ _))]
      congr 1
      exact foldl_max_zero
        (fun y hy => hz y (List.mem_cons_of_mem _ hy))
    exact ⟨hmax, by simp [baseshift_and_renormalize, hmax]⟩

/-- Witness for `baseshift_requires_value_above_median`: on `[0,0,2]`
(median `0`, a value above it) the output exists, is bounded by `[0,1]`
and attains `1`; on the constant series `[1,1]` (median `1`, nothing
above it) the shifted maximum is `0` and the result is the
divide-by-zero NaN case. -/
theorem baseshift_requires_value_above_median_witness :
    (∃ out, baseshift_and_renormalize [0, 0, 2] = some out ∧
      (∀ y ∈ out, 0 ≤ y ∧ y ≤ 1) ∧ 1 ∈ out) ∧
    ((baseshift [1, 1]).max? = some 0 ∧
      baseshift_and_renormalize [1, 1] = none) :=
  ⟨(baseshift_requires_value_above_median [0, 0, 2]).1
      ⟨2, by simp,
        by norm_num [npmedian, List.insertionSort, List.orderedInsert]⟩,
   (baseshift_requires_value_above_median [1, 1]).2 (by simp)
      (by
        have h : npmedian [1, 1] = 1 := by
          norm_num [npmedian, List.insertionSort, List.orderedInsert]
        intro x hx
        rw [h]
        simp only [List.mem_cons, List.not_mem_nil, or_false] at hx
        rcases hx with rfl | rfl <;> exact le_refl 1)⟩

/-- C6: evaluating the correlation pairing at three distinct series
`1, 2, 3` shows the code emits four correlations — including the
self-pair `(3, 3)`, because the loop guard `i < len(esses)` is vacuous
— rather than one per unordered pair of distinct series (three);
at two series the single pair `(1, 2)` matches the claim. -/
theorem linechart_correlations_self_pair :
    linechart_correlations [1, 2] = some [(1, 2)] ∧
    linechart_correlations [(1 : ℕ), 2, 3] =
      some [(1, 3), (2, 3), (3, 3), (1, 2)] := by
  constructor
  · rw [linechart_correlations]
    norm_num
  · rw [linechart_correlations]
    norm_num
    rw [linechart_correlations]
    norm_num

lemma mem_times_of_mem_assignments {devices : List String}
    {tbl : List PlacementRow} {a : PW × String × Int}
    (ha : a ∈ allAssignments devices tbl) : a.2.2 ∈ times tbl := by
  rcases List.mem_flatMap.mp ha with ⟨pw, _, ha⟩
  rcases List.mem_flatMap.mp ha with ⟨d, _, ha⟩
  rcases List.mem_filterMap.mp ha with ⟨row, hrow, heq⟩
  by_cases hc : row.cell d = some pw
  · rw [if_pos hc] at heq
    obtain rfl := Option.some.inj heq
    show row.t ∈ times tbl
    have h1 : row.t ∈ tbl.map PlacementRow.t := List.mem_map_of_mem _ hrow
    exact ((List.perm_insertionSort _ _).mem_iff).mpr (List.mem_dedup.mpr h1)
  · rw [if_neg hc] at heq
    cases heq

lemma lookup_zip_tail {ts : List Int} {t : Int} (ht : t ∈ ts)
    (hl : some t ≠ ts.getLast?) :
    ∃ t', (ts.zip ts.tail).lookup t = some t' := by
  induction ts with
  | nil => cases ht
  | cons x rest ih =>
      cases rest with
      | nil =>
          simp only [List.mem_singleton] at ht
          subst ht
          simp at hl
      | cons y rest' =>
          rw [show (x :: y :: rest').zip (x :: y :: rest').tail =
              (x, y) :: (y :: rest').zip rest' from rfl]
          by_cases hx : t = x
          · subst hx
            exact ⟨y, by simp [List.lookup]⟩
          · have ht' : t ∈ y :: rest' := by
              rcases List.mem_cons.mp ht with h | h
              · exact absurd h hx
              · exact h
            have hl' : some t ≠ (y :: rest').getLast? := by
              rw [List.getLast?_cons_cons] at hl
              exact hl
            obtain ⟨t', hlook⟩ := ih ht' hl'
            have hbeq : (t == x) = false := beq_eq_false_iff_ne.mpr hx
            exact ⟨t', by simpa [List.lookup, hbeq] using hlook⟩

lemma mem_of_lookup_eq_some {l : List (Int × Int)} {k v : Int}
    (h : l.lookup k = some v) : (k, v) ∈ l := by
  induction l with
  | nil => cases h
  | cons p rest ih =>
      obtain ⟨a, b⟩ := p
      by_cases hk : k = a
      · subst hk
        have hb : some b = some v := by simpa [List.lookup] using h
        obtain rfl := Option.some.inj hb
        exact List.mem_cons_self _ _
      · have hbeq : (k == a) = false := beq_eq_false_iff_ne.mpr hk
        have h' : rest.lookup k = some v := by
          simpa [List.lookup, hbeq] using h
        exact List.mem_cons_of_mem _ (ih h')

lemma mapM_except_ok {α β ε : Type} (f : α → Except ε β) :
    ∀ xs : List α, (∀ x ∈ xs, ∃ y, f x = Except.ok y) →
      ∃ ys, xs.mapM f = Except.ok ys ∧
        List.Forall₂ (fun x y => f x = Except.ok y) xs ys := by
  intro xs
  induction xs with
  | nil => exact fun _ => ⟨[], rfl, List.Forall₂.nil⟩
  | cons x xs ih =>
      intro h
      obtain ⟨y, hy⟩ := h x (List.mem_cons_self _ _)
      obtain ⟨ys, hys, hall⟩ := ih (fun z hz => h z (List.mem_cons_of_mem _ hz))
      refine ⟨y :: ys, ?_, List.Forall₂.cons hy hall⟩
      rw [List.mapM_cons, hy]
      show (xs.mapM f >>= fun ys' => pure (y :: ys')) = Except.ok (y :: ys)
      rw [hys]
      rfl

/-- C1 counterexample: a placement table with timestamps `0, 100, 200`
in which `("Alice","left")` wears `DevA` at the last timestamp `200`.
The claim says the last-timestamp assignment is silently dropped and
never causes an error, but `start_stop[200]` has no entry and
`getpeople` aborts with `KeyError`. -/
theorem getpeople_keyerror_at_last_timestamp :
    getpeople ["DevA", "DevB"]
      [⟨0, [("DevA", some ("Alice", "left")), ("DevB", none)]⟩,
       ⟨100, [("DevA", none), ("DevB", some ("Alice", "left"))]⟩,
       ⟨200, [("DevA", some ("Alice", "left")), ("DevB", none)]⟩] =
      Except.error "KeyError" := by
  rfl

/-- C1 amended: when no device assignment occurs at the last (maximal)
distinct timestamp, `getpeople` succeeds and emits one `WearInterval`
per assignment, whose start is that assignment's timestamp and whose
stop is the next timestamp in sorted order (a consecutive pair of the
sorted distinct timestamp list), with exactly `N − 1` successor
boundaries for `N` distinct timestamps; an assignment at the last
timestamp is not dropped silently — it raises `KeyError` (see the
counterexample). -/
theorem getpeople_amended (devices : List String) (tbl : List PlacementRow)
    (hlast : ∀ a ∈ allAssignments devices tbl,
      some a.2.2 ≠ (times tbl).getLast?) :
    ∃ l, getpeople devices tbl = Except.ok l ∧
      List.Forall₂
        (fun (a : PW × String × Int) (w : WearInterval) =>
          w.pw = a.1 ∧ w.device = a.2.1 ∧ w.start = a.2.2 ∧
            (w.start, w.stop) ∈ start_stop tbl)
        (allAssignments devices tbl) l ∧
      (start_stop tbl).length = (times tbl).length - 1 ∧
      (times tbl).Sorted (· ≤ ·) ∧ (times tbl).Nodup := by
  have hok : ∀ a ∈ allAssignments devices tbl,
      ∃ w, (fun (a : PW × String × Int) =>
        match (start_stop tbl).lookup a.2.2 with
        | some t' => Except.ok (⟨a.1, a.2.1, a.2.2, t'⟩ : WearInterval)
        | none => Except.error "KeyError") a = Except.ok w := by
    intro a ha
    obtain ⟨t', ht'⟩ :=
      lookup_zip_tail (mem_times_of_mem_assignments ha) (hlast a ha)
    have ht'' : (start_stop tbl).lookup a.2.2 = some t' := ht'
    refine ⟨⟨a.1, a.2.1, a.2.2, t'⟩, ?_⟩
    show (match (start_stop tbl).lookup a.2.2 with
      | some u => Except.ok (⟨a.1, a.2.1, a.2.2, u⟩ : WearInterval)
      | none => Except.error "KeyError") =
      Except.ok (⟨a.1, a.2.1, a.2.2, t'⟩ : WearInterval)
    rw [ht'']
  obtain ⟨l, hl, hall⟩ := mapM_except_ok _ (allAssignments devices tbl) hok
  refine ⟨l, hl, ?_, ?_, ?_, ?_⟩
  · refine hall.imp ?_
    intro a w hw
    have hw2 : (match (start_stop tbl).lookup a.2.2 with
      | some u => Except.ok (⟨a.1, a.2.1, a.2.2, u⟩ : WearInterval)
      | none => Except.error "KeyError") = Except.ok w := hw
    rcases hcase : (start_stop tbl).lookup a.2.2 with _ | t'
    · rw [hcase] at hw2
      cases hw2
    · rw [hcase] at hw2
      have hw' : Except.ok (⟨a.1, a.2.1, a.2.2, t'⟩ : WearInterval) =
          Except.ok w := hw2
      obtain rfl := Except.ok.inj hw'
      exact ⟨rfl, rfl, rfl, mem_of_lookup_eq_some hcase⟩
  · simp only [start_stop, List.length_zip, List.length_tail]
    omega
  · exact List.sorted_insertionSort _ _
  · exact ((List.perm_insertionSort _ _).nodup_iff).mpr (List.nodup_dedup _)

/-- Witness for `getpeople_amended` at the spec's own example: Alice
wears DevA at `t=0`, DevB at `t=100`, and nothing is assigned at the
final timestamp `200`; the reconciler succeeds with intervals
`(Alice,left,DevA,0,100)` and `(Alice,left,DevB,100,200)` and two
(`N − 1 = 2`) boundary pairs. -/
theorem getpeople_amended_witness :
    ∃ l, getpeople ["DevA", "DevB"]
        [⟨0, [("DevA", some ("Alice", "left")), ("DevB", none)]⟩,
         ⟨100, [("DevA", none), ("DevB", some ("Alice", "left"))]⟩,
         ⟨200, [("DevA", none), ("DevB", none)]⟩] = Except.ok l ∧
      List.Forall₂
        (fun (a : PW × String × Int) (w : WearInterval) =>
          w.pw = a.1 ∧ w.device = a.2.1 ∧ w.start = a.2.2 ∧
            (w.start, w.stop) ∈ start_stop
              [⟨0, [("DevA", some ("Alice", "left")), ("DevB", none)]⟩,
               ⟨100, [("DevA", none), ("DevB", some ("Alice", "left"))]⟩,
               ⟨200, [("DevA", none), ("DevB", none)]⟩])
        (allAssignments ["DevA", "DevB"]
          [⟨0, [("DevA", some ("Alice", "left")), ("DevB", none)]⟩,
           ⟨100, [("DevA", none), ("DevB", some ("Alice", "left"))]⟩,
           ⟨200, [("DevA", none), ("DevB", none)]⟩]) l ∧
      (start_stop
          [⟨0, [("DevA", some ("Alice", "left")), ("DevB", none)]⟩,
           ⟨100, [("DevA", none), ("DevB", some ("Alice", "left"))]⟩,
           ⟨200, [("DevA", none), ("DevB", none)]⟩]).length =
        (times
          [⟨0, [("DevA", some ("Alice", "left")), ("DevB", none)]⟩,
           ⟨100, [("DevA", none), ("DevB", some ("Alice", "left"))]⟩,
           ⟨200, [("DevA", none), ("DevB", none)]⟩]).length - 1 ∧
      (times
          [⟨0, [("DevA", some ("Alice", "left")), ("DevB", none)]⟩,
           ⟨100, [("DevA", none), ("DevB", some ("Alice", "left"))]⟩,
           ⟨200, [("DevA", none), ("DevB", none)]⟩]).Sorted (· ≤ ·) ∧
      (times
          [⟨0, [("DevA", some ("Alice", "left")), ("DevB", none)]⟩,
           ⟨100, [("DevA", none), ("DevB", some ("Alice", "left"))]⟩,
           ⟨200, [("DevA", none), ("DevB", none)]⟩]).Nodup :=
  getpeople_amended ["DevA", "DevB"]
    [⟨0, [("DevA", some ("Alice", "left")), ("DevB", none)]⟩,
     ⟨100, [("DevA", none), ("DevB", some ("Alice", "left"))]⟩,
     ⟨200, [("DevA", none), ("DevB", none)]⟩] (by decide)

/-- C10: on the E4 export column `[1000, 2, 10, 11, 12, 13]`
(start time `1000`, sample rate `2`, four data rows) the code computes
the intended index `[1000, 1002, 1004, 1006]`, but the pandas-aligned
assignment gives the four remaining rows the timestamps
`1004, 1006, NaN, NaN` — not `start_time + i*sample_rate`, not
strictly increasing, and not evenly spaced. -/
theorem e4_timestamp_misalignment :
    arange 1000 (4 * 2 + 1000) 2 = [1000, 1002, 1004, 1006] ∧
    e4_timestamp [1000, 2, 10, 11, 12, 13] =
      some [(some 1004, 10), (some 1006, 11), (none, 12), (none, 13)] := by
  exact ⟨by decide, by decide⟩

end HBN
